import Mathlib

/-!
Verification of the AST-based React-to-HTML sync engine (sync.js).

The engine is shallowly embedded over JavaScript strings modelled as
lists of characters. The regular expressions the tool builds at run time
are embedded as data (the RE type below) together with a backtracking
matcher whose candidate order mirrors the JavaScript engine (leftmost
position first, greedy and lazy quantifier priorities, first alternative
first), so that String.prototype.match, String.prototype.replace with and
without the global flag, and String.prototype.lastIndexOf can be given
faithful executable models. All definitions are executable by structural
recursion so that concrete runs reduce inside the kernel.

The repository sources are ASCII; JavaScript strings are therefore
modelled character for character, and the character classes below cover
the ASCII part of the JavaScript classes.
-/

namespace OrgSync

deriving instance DecidableEq for Except

/-- JavaScript string contents, one entry per character. -/
abbrev Str := List Char

/-- A Lean string literal as a JavaScript string value. -/
def L (s : String) : Str := s.toList

/-- The ASCII part of the JavaScript regular-expression class backslash-s. -/
def isSpaceJS (c : Char) : Bool :=
  c == ' ' || c == '\t' || c == '\n' || c == '\r' || c == '\x0b' || c == '\x0c'

/-- The JavaScript regular-expression class backslash-w. -/
def isWordJS (c : Char) : Bool :=
  c.isAlpha || c.isDigit || c == '_'

/-- Character classes occurring in the regular expressions of sync.js. -/
inductive CC where
  | lit (c : Char)
  | litCI (c : Char)
  | spaceC
  | wordC
  | anyC
  | dotC
  | noneOf (cs : Str)
  | oneOf (cs : Str)

/-- Whether a character matches a class. dotC is the dot of a regex
without the s flag: every character but a line terminator. -/
def CC.test : CC → Char → Bool
  | .lit a, c => c == a
  | .litCI a, c => c.toLower == a.toLower
  | .spaceC, c => isSpaceJS c
  | .wordC, c => isWordJS c
  | .anyC, _ => true
  | .dotC, c => !(c == '\n' || c == '\r' || c == '\u2028' || c == '\u2029')
  | .noneOf cs, c => !(cs.contains c)
  | .oneOf cs, c => cs.contains c

/-- The regular-expression shapes sync.js uses: concatenation,
alternation, greedy and lazy star, greedy option, numbered capture
groups and lookahead. -/
inductive RE where
  | eps
  | sym (cc : CC)
  | cat (a b : RE)
  | alt (a b : RE)
  | star (lz : Bool) (a : RE)
  | opt (a : RE)
  | grp (i : Nat) (a : RE)
  | look (a : RE)

/-- Capture-group bindings, most recent first. -/
abbrev Caps := List (Nat × Str)

/-- Candidate continuations of a match at a fixed start position: the
rest of the input after the consumed prefix, with the captures so far.
The rest is a suffix of the input, which bounds the star recursion. -/
abbrev MRes (s : Str) := List { p : Str × Caps // p.1 <:+ s }

/-- Iterated matching for the star. Mirrors the JavaScript engine: a
quantified body must consume at least one character per iteration (the
engine cuts empty iterations), so the input length bounds the number of
iterations and the fuel (length + 1) is never exhausted on a reachable
path. Greedy stars put deeper iterations first, lazy stars put the empty
iteration first. -/
def starLoop (f : (u : Str) → Caps → MRes u) (lz : Bool) :
    Nat → (s : Str) → Caps → MRes s
  | 0, s, cs => [⟨(s, cs), List.suffix_refl s⟩]
  | fuel + 1, s, cs =>
      let deeper : MRes s :=
        (f s cs).flatMap fun r =>
          if r.val.1.length < s.length then
            (starLoop f lz fuel r.val.1 r.val.2).map fun q =>
              ⟨q.val, q.prop.trans r.prop⟩
          else []
      if lz then ⟨(s, cs), List.suffix_refl s⟩ :: deeper
      else deeper ++ [⟨(s, cs), List.suffix_refl s⟩]

/-- All ways the expression matches a prefix of the input, in the
backtracking priority order of the JavaScript engine. -/
def mrun : RE → (s : Str) → Caps → MRes s
  | .eps, s, cs => [⟨(s, cs), List.suffix_refl s⟩]
  | .sym cc, s, cs =>
      match s with
      | [] => []
      | c :: t => if cc.test c then [⟨(t, cs), List.suffix_cons c t⟩] else []
  | .cat a b, s, cs =>
      (mrun a s cs).flatMap fun r =>
        (mrun b r.val.1 r.val.2).map fun q => ⟨q.val, q.prop.trans r.prop⟩
  | .alt a b, s, cs => mrun a s cs ++ mrun b s cs
  | .star lz a, s, cs => starLoop (fun u cu => mrun a u cu) lz (s.length + 1) s cs
  | .opt a, s, cs => mrun a s cs ++ [⟨(s, cs), List.suffix_refl s⟩]
  | .grp i a, s, cs =>
      (mrun a s cs).map fun r =>
        ⟨(r.val.1, (i, s.take (s.length - r.val.1.length)) :: r.val.2), r.prop⟩
  | .look a, s, cs =>
      match mrun a s cs with
      | [] => []
      | _ :: _ => [⟨(s, cs), List.suffix_refl s⟩]

/-- Leftmost match: the first start position at which the expression
matches, with the preferred (first) candidate there. Returns the text
before the match, the matched text, the captures, and the rest. -/
def execSearch (re : RE) : (s : Str) → Option (Str × Str × Caps × Str)
  | [] =>
      match mrun re [] [] with
      | r :: _ => some ([], [], r.val.2, r.val.1)
      | [] => none
  | c :: t =>
      match mrun re (c :: t) [] with
      | r :: _ =>
          some ([], (c :: t).take ((c :: t).length - r.val.1.length),
                r.val.2, r.val.1)
      | [] =>
          (execSearch re t).map fun x => (c :: x.1, x.2.1, x.2.2.1, x.2.2.2)

/-- Truthiness of String.prototype.match: at least one match exists. -/
def reTest (re : RE) (s : Str) : Bool := (execSearch re s).isSome

/-- First capture with the given number. -/
def capGet (cs : Caps) (i : Nat) : Option Str :=
  (cs.find? fun e => e.1 == i).map fun e => e.2

/-- Global replacement with a replacer function, scanning left to right
and continuing after each match (an empty match advances one character,
as the JavaScript engine advances lastIndex). Each step consumes at
least one character of the remaining input, so fuel (length + 1) is
never exhausted on a reachable path. -/
def replaceAllF (re : RE) (f : Str → Caps → Str) : Nat → Str → Str
  | 0, s => s
  | fuel + 1, s =>
      match execSearch re s with
      | none => s
      | some (p, m, cs, r) =>
          match m with
          | [] =>
              match r with
              | [] => p ++ f [] cs
              | c :: r2 => p ++ f [] cs ++ c :: replaceAllF re f fuel r2
          | _ :: _ => p ++ f m cs ++ replaceAllF re f fuel r

/-- String.prototype.replace with a global regex and a replacer function. -/
def jsReplaceAllF (re : RE) (f : Str → Caps → Str) (s : Str) : Str :=
  replaceAllF re f (s.length + 1) s

/-- Dollar sequences of a string replacement: a dollar then a dollar is
a literal dollar, dollar ampersand is the whole match, dollar digit is
that capture. Group numbers that did not capture yield the empty string;
no replacement string of this development exercises a number outside its
pattern. -/
def expandRepl (whole : Str) (cs : Caps) : Str → Str
  | [] => []
  | '$' :: '$' :: rest => '$' :: expandRepl whole cs rest
  | '$' :: '&' :: rest => whole ++ expandRepl whole cs rest
  | '$' :: c :: rest =>
      if c.isDigit then
        ((capGet cs (c.toNat - 48)).getD []) ++ expandRepl whole cs rest
      else '$' :: c :: expandRepl whole cs rest
  | c :: rest => c :: expandRepl whole cs rest

/-- String.prototype.replace with a global regex and a string. -/
def jsReplaceAllS (re : RE) (tmpl : Str) (s : Str) : Str :=
  jsReplaceAllF re (fun m cs => expandRepl m cs tmpl) s

/-- String.prototype.replace without the global flag and with a replacer
function: only the first match is replaced. -/
def jsReplaceFirstF (re : RE) (f : Str → Caps → Str) (s : Str) : Str :=
  match execSearch re s with
  | none => s
  | some (p, m, cs, r) => p ++ f m cs ++ r

/-- The whole-match strings of every match, left to right (the array
String.prototype.match returns for a regex with the global flag). -/
def matchAllF (re : RE) : Nat → Str → List Str
  | 0, _ => []
  | fuel + 1, s =>
      match execSearch re s with
      | none => []
      | some (_, m, _, r) =>
          match m with
          | [] =>
              match r with
              | [] => [[]]
              | _ :: r2 => [] :: matchAllF re fuel r2
          | _ :: _ => m :: matchAllF re fuel r

/-- String.prototype.match with a global regex: the array of whole-match
strings, or null (none) when there is no match. -/
def jsMatchG (re : RE) (s : Str) : Option (List Str) :=
  let ms := matchAllF re (s.length + 1) s
  if ms.isEmpty then none else some ms

/-- Whether the first list is a prefix of the second. -/
def isPrefixB : Str → Str → Bool
  | [], _ => true
  | _ :: _, [] => false
  | a :: p, b :: s => a == b && isPrefixB p s

/-- Whether the pattern occurs somewhere in the text. -/
def containsSub (s pat : Str) : Bool :=
  (List.range (s.length + 1)).any fun i => isPrefixB pat (s.drop i)

/-- String.prototype.lastIndexOf: the largest start position of an
occurrence of the pattern, or none (JavaScript: minus one). -/
def lastIndexOfQ (s pat : Str) : Option Nat :=
  ((List.range (s.length + 1)).filter fun i => isPrefixB pat (s.drop i)).getLast?

/-- String.prototype.trim (also the effect of the global replacement of
the anchored class, a leading run of whitespace or a trailing one, by
nothing: interior whitespace is untouched either way). -/
def jsTrim (s : Str) : Str :=
  ((s.dropWhile isSpaceJS).reverse.dropWhile isSpaceJS).reverse

/-- String.prototype.split on the newline character. -/
def splitNl : Str → List Str
  | [] => [[]]
  | c :: t =>
      if c == '\n' then [] :: splitNl t
      else
        match splitNl t with
        | [] => [[c]]
        | l :: ls => (c :: l) :: ls

/-- Array.prototype.join on the newline character. -/
def joinNl : List Str → Str
  | [] => []
  | l :: ls => l ++ ls.flatMap fun x => '\n' :: x

/-- Array.prototype.join on a comma and a space. -/
def joinCommaSp : List Str → Str
  | [] => []
  | x :: xs => x ++ xs.flatMap fun y => L ", " ++ y

/-- Occurrences of a pattern in a text, one per start position. -/
def countOcc : Str → Str → Nat
  | [], pat => if isPrefixB pat [] then 1 else 0
  | c :: t, pat => (if isPrefixB pat (c :: t) then 1 else 0) + countOcc t pat

/- ### The regular expressions sync.js builds -/

/-- Concatenation of a list of expressions. -/
def seqRE (l : List RE) : RE := l.foldr RE.cat RE.eps

/-- The expression matching a literal string. -/
def lits (s : Str) : RE := seqRE (s.map fun c => RE.sym (CC.lit c))

/-- The expression matching a literal string case-insensitively (the i
flag). -/
def litsCI (s : Str) : RE := seqRE (s.map fun c => RE.sym (CC.litCI c))

/-- A greedy star over one character class. -/
def star0 (cc : CC) : RE := RE.star false (RE.sym cc)

/-- A lazy star over one character class. -/
def lazy0 (cc : CC) : RE := RE.star true (RE.sym cc)

/-- A greedy plus over one character class. -/
def plus1 (cc : CC) : RE := RE.cat (RE.sym cc) (star0 cc)

/-- A single literal character. -/
def chR (c : Char) : RE := RE.sym (CC.lit c)

/-- updateFunction pattern (a): a whitespace group, then the group
"function", whitespace, the name, optional whitespace, a parenthesised
parameter list, optional whitespace, a brace, a lazy any-character body,
and a newline, whitespace and the closing brace. -/
def pattern1 (functionName : Str) : RE :=
  seqRE [RE.grp 1 (star0 .spaceC),
         RE.grp 2 (seqRE
           [lits (L "function"), plus1 .spaceC, lits functionName,
            star0 .spaceC, chR '(', star0 (.noneOf [')']), chR ')',
            star0 .spaceC, chR '{', lazy0 .anyC,
            chR '\n', star0 .spaceC, chR '}'])]

/-- updateFunction pattern (b): as (a) but with no whitespace between
the name and the open parenthesis, and the body ending at the first
closing brace. -/
def pattern2 (functionName : Str) : RE :=
  seqRE [RE.grp 1 (star0 .spaceC),
         RE.grp 2 (seqRE
           [lits (L "function"), plus1 .spaceC, lits functionName,
            chR '(', star0 (.noneOf [')']), chR ')',
            star0 .spaceC, chR '{', lazy0 .anyC, chR '}'])]

/-- updateFunction pattern (c): as (b) but the body must contain the
word return followed by non-brace characters before the closing brace. -/
def pattern3 (functionName : Str) : RE :=
  seqRE [RE.grp 1 (star0 .spaceC),
         RE.grp 2 (seqRE
           [lits (L "function"), plus1 .spaceC, lits functionName,
            chR '(', star0 (.noneOf [')']), chR ')',
            star0 .spaceC, chR '{', lazy0 .anyC,
            lits (L "return"), star0 (.noneOf ['}']), chR '}'])]

/-- updateStateVariables variable pattern: let, whitespace, the getter
name, an equals sign amid optional whitespace, a non-semicolon run, and
the semicolon. -/
def varPattern (getter : Str) : RE :=
  seqRE [lits (L "let"), plus1 .spaceC, lits getter,
         star0 .spaceC, chR '=', star0 .spaceC,
         plus1 (.noneOf [';']), chR ';']

/-- updateStateVariables state-region pattern (case-insensitive): a line
comment announcing global state, a lazy any-character run, and a
lookahead for a newline followed by a comment, the word function or the
word document. -/
def statePattern : RE :=
  seqRE [chR '/', chR '/', star0 .spaceC, litsCI (L "Global"),
         plus1 .spaceC, litsCI (L "state"), lazy0 .anyC,
         RE.look (RE.alt
           (seqRE [chR '\n', star0 .spaceC, chR '/', chR '/'])
           (RE.alt
             (seqRE [chR '\n', star0 .spaceC, litsCI (L "function")])
             (seqRE [chR '\n', star0 .spaceC, litsCI (L "document")])))]

/-- cleanReactSyntax import pattern: import, whitespace, a lazy run, the
word from, whitespace, a quote, a lazy run, a quote, an optional
semicolon and an optional newline. -/
def importRe : RE :=
  seqRE [lits (L "import"), plus1 .spaceC, lazy0 .dotC,
         lits (L "from"), plus1 .spaceC, RE.sym (.oneOf ['\'', '"']),
         lazy0 .dotC, RE.sym (.oneOf ['\'', '"']),
         RE.opt (chR ';'), RE.opt (chR '\n')]

/-- cleanReactSyntax setter pattern: the letters set, a captured word
run, and a captured lazy run between parentheses. There is no word
boundary and no case requirement on the first captured letter. -/
def setRe : RE :=
  seqRE [lits (L "set"), RE.grp 1 (plus1 .wordC),
         chR '(', RE.grp 2 (lazy0 .dotC), chR ')']

/-- cleanReactSyntax environment pattern (the escaped dots of the source
are literal dots). -/
def procEnvRe : RE := lits (L "process.env.NODE_ENV")

/-- cleanReactSyntax awaited remote-fetch pattern. -/
def awaitAxiosRe : RE :=
  seqRE [lits (L "await axios.get("), RE.grp 1 (lazy0 .dotC), chR ')']

/-- cleanReactSyntax plain remote-fetch pattern. -/
def axiosRe : RE :=
  seqRE [lits (L "axios.get("), RE.grp 1 (lazy0 .dotC), chR ')']

/-- cleanReactSyntax fallback-data identifier pattern. -/
def fallbackRe : RE := lits (L "fallbackData")

/-- The undefined-token pattern (used in cleanReactSyntax and again on
each record by updateFunction). -/
def undefinedRe : RE := lits (L "undefined")

/-- cleanReactSyntax blank-line pattern: a newline, a whitespace run and
a newline. -/
def blankLinesRe : RE := seqRE [chR '\n', star0 .spaceC, chR '\n']

/-- String.prototype.charAt(0).toLowerCase() prepended to slice(1). -/
def lowerFirst : Str → Str
  | [] => []
  | c :: t => c.toLower :: t

/-- ReactExtractor.cleanReactSyntax: the fixed substitution chain of
sync.js, in source order: strip imports, rewrite the setter shape to an
assignment, rewrite the environment lookup, rewrite the two remote-fetch
shapes, rewrite the fallback-data identifier, delete undefined tokens,
collapse blank lines, delete the leading and trailing whitespace runs,
and trim. -/
def cleanReactSyntax (code : Str) : Str :=
  let s1 := jsReplaceAllS importRe [] code
  let s2 := jsReplaceAllF setRe
    (fun _ cs =>
      lowerFirst ((capGet cs 1).getD []) ++ L " = " ++ (capGet cs 2).getD [])
    s1
  let s3 := jsReplaceAllS procEnvRe (L "window.NODE_ENV || \"production\"") s2
  let s4 := jsReplaceAllS awaitAxiosRe
    (L "await fetch($1).then(res => res.json())") s3
  let s5 := jsReplaceAllS axiosRe (L "fetch($1).then(res => res.json())") s4
  let s6 := jsReplaceAllS fallbackRe (L "getFallbackData()") s5
  let s7 := jsReplaceAllS undefinedRe [] s6
  let s8 := jsReplaceAllS blankLinesRe (L "\n") s7
  jsTrim (jsTrim s8)

/- ### HTMLUpdater -/

/-- The record sync.js stores per extracted function (its originalPath,
a live traversal handle, is not data and is omitted). The field named
type in the source is ftype here: type is a Lean keyword. -/
structure FuncData where
  code : Str
  ftype : Str
  params : List Str
deriving DecidableEq

/-- The record sync.js pushes per extracted state declaration. Reader
and writer names can be undefined in JavaScript (none here). -/
structure StateRec where
  getter : Option Str
  setter : Option Str
  initialValue : Str
  jsEquivalent : Str
deriving DecidableEq

/-- The mutable counters and warnings of an HTMLUpdater. -/
structure UpdSt where
  updateCount : Nat
  skipCount : Nat
  warnings : List Str
deriving DecidableEq

/-- Template-literal interpolation of a possibly undefined value. -/
def jsStr (o : Option Str) : Str := o.getD (L "undefined")

/-- The JavaScript or-else on a possibly absent string: an absent or
empty (falsy) string yields the default. -/
def jsOrStr (o : Option Str) (dflt : Str) : Str :=
  match o with
  | some s => if s.isEmpty then dflt else s
  | none => dflt

/-- HTMLUpdater.indentCode: re-indent line by line, prefixing only the
lines whose trimmed text is nonempty. -/
def indentCode (code : Str) (spaces : Nat) : Str :=
  joinNl ((splitNl code).map fun line =>
    if (jsTrim line).isEmpty then line else List.replicate spaces ' ' ++ line)

/-- The closing script-region marker of the target file. -/
def scriptCloseMarker : Str := L "</script>"

/-- The warning updateFunction records when a function can be neither
replaced nor inserted. -/
def warnNoInsertion (functionName : Str) : Str :=
  L "Could not find insertion point for function: " ++ functionName

/-- The warning updateStateVariables records when a state variable can
be neither replaced nor inserted. -/
def warnNoStateUpdate (getter : Str) : Str :=
  L "Could not update state variable: " ++ getter

/-- The first pattern of a list that matches the text, with the
whole-match array String.prototype.match returns for it. -/
def firstMatch : List RE → Str → Option (RE × List Str)
  | [], _ => none
  | p :: ps, html =>
      match jsMatchG p html with
      | some ms => some (p, ms)
      | none => firstMatch ps html

/-- HTMLUpdater.updateFunction, the pure text transformation: clean the
record code of undefined tokens and trim it; try the three patterns in
order and, on the first match, replace every match of that pattern by
the matched-array entry one (or, when that entry is absent or empty, a
default eight-space indentation) followed by the code re-indented by
that texts length; with no match, insert the eight-space-indented code,
padded by blank lines, before the last closing script marker; with no
marker either, record a warning and a skip. The match call uses the
global flag, so entry one of its result is the second whole match, not
a capture group. -/
def updateFunction (st : UpdSt) (htmlContent : Str) (functionName : Str)
    (functionData : FuncData) : UpdSt × Str :=
  let cleanCode := jsTrim (jsReplaceAllS undefinedRe [] functionData.code)
  match firstMatch
      [pattern1 functionName, pattern2 functionName, pattern3 functionName]
      htmlContent with
  | some (pat, ms) =>
      let indentation := jsOrStr (ms.get? 1) (L "        ")
      let indentedCode := indentCode cleanCode indentation.length
      let html2 := jsReplaceAllS pat (indentation ++ indentedCode) htmlContent
      ({ st with updateCount := st.updateCount + 1 }, html2)
  | none =>
      match lastIndexOfQ htmlContent scriptCloseMarker with
      | some insertPoint =>
          let indentedFunction := indentCode cleanCode 8
          let html2 := htmlContent.take insertPoint ++ L "\n        " ++
            indentedFunction ++ L "\n\n    " ++ htmlContent.drop insertPoint
          ({ st with updateCount := st.updateCount + 1 }, html2)
      | none =>
          ({ st with skipCount := st.skipCount + 1,
                     warnings := st.warnings ++ [warnNoInsertion functionName] },
           htmlContent)

/-- HTMLUpdater.updateStateVariables, the pure text transformation: per
record, replace every existing let declaration of the reader, else
append a new declaration inside the global-state region, else record a
warning and a skip. -/
def updateStateVariables (st : UpdSt) (htmlContent : Str)
    (stateVars : List StateRec) : UpdSt × Str :=
  stateVars.foldl
    (fun acc stateVar =>
      let g := jsStr stateVar.getter
      let vp := varPattern g
      if reTest vp acc.2 then
        ({ acc.1 with updateCount := acc.1.updateCount + 1 },
         jsReplaceAllS vp
           (L "let " ++ g ++ L " = " ++ stateVar.initialValue ++ L ";") acc.2)
      else if reTest statePattern acc.2 then
        ({ acc.1 with updateCount := acc.1.updateCount + 1 },
         jsReplaceFirstF statePattern
           (fun m _ => m ++ L "\n        let " ++ g ++ L " = " ++
             stateVar.initialValue ++ L "; // " ++ jsStr stateVar.setter)
           acc.2)
      else
        ({ acc.1 with skipCount := acc.1.skipCount + 1,
                      warnings := acc.1.warnings ++ [warnNoStateUpdate g] },
         acc.2))
    (st, htmlContent)

/-- HTMLUpdater.updateHTML without its file reads and writes: the
per-function updates in map (discovery) order, then the state-variable
updates. -/
def updateHTMLText (functions : List (Str × FuncData)) (state : List StateRec)
    (st : UpdSt) (htmlContent : Str) : UpdSt × Str :=
  let r := functions.foldl
    (fun acc kv => updateFunction acc.1 acc.2 kv.1 kv.2) (st, htmlContent)
  updateStateVariables r.1 r.2 state

/-- The patch phase as a text transformation (a fresh HTMLUpdater has
zero counts and no warnings; the counters do not influence the text). -/
def patchText (functions : List (Str × FuncData)) (state : List StateRec)
    (htmlContent : Str) : Str :=
  (updateHTMLText functions state ⟨0, 0, []⟩ htmlContent).2

/- ### ReactExtractor: the syntax tree and the traversal -/

/-- An element of a destructuring array pattern (undefined element
names are none). -/
inductive PatElem where
  | ident (name : Str)
  | objectPat
  | assignPat
  | restEl

/-- Property access .name on a pattern element: only an identifier has
one; on the others it is undefined. -/
def PatElem.nameQ : PatElem → Option Str
  | .ident n => some n
  | _ => none

/-- The binding target of a variable declarator. An array pattern lists
its elements; a hole (elision) is none. -/
inductive DeclTarget where
  | ident (name : Str)
  | arrayPat (elements : List (Option PatElem))
  | otherPat

/-- Property access id.name on a declarator target. -/
def DeclTarget.nameQ : DeclTarget → Option Str
  | .ident n => some n
  | _ => none

/-- The syntax-tree nodes the sync.js visitors can meet. Function nodes
carry the text the paired code generator would produce for them (gen for
a whole declaration, bodyGen for a function-expression body), since the
generator is the parsers external pretty-printer, plus their structural
children for the traversal. Identifier and pattern leaves that no
visitor matches are elided. A parameter is its name, or none when it is
not a plain identifier. -/
inductive JsNode where
  | program (body : List JsNode)
  | funcDecl (idName : Option Str) (params : List (Option Str)) (gen : Str)
      (body : List JsNode)
  | varDeclarator (id : DeclTarget) (init : Option JsNode)
  | arrowFE (params : List (Option Str)) (blockBody : Bool) (bodyGen : Str)
      (body : List JsNode)
  | funcExprFE (params : List (Option Str)) (blockBody : Bool) (bodyGen : Str)
      (body : List JsNode)
  | callExpr (calleeName : Option Str) (args : List JsNode)
  | identNode (name : Str)
  | nullLit
  | boolLit (b : Bool)
  | numLit (n : Nat)
  | strLit (s : Str)
  | arrayExpr (elements : List JsNode)
  | objectExpr (children : List JsNode)
  | exprStmt (e : JsNode)
  | otherNode (children : List JsNode)

/-- An extracted effect record. -/
structure LogicRec where
  ltype : Str
  code : Str
  dependencies : List Str
deriving DecidableEq

/-- The mutable state of a ReactExtractor. The function map is a
JavaScript Map: an insertion-ordered association list whose set
operation overwrites in place. -/
structure ESt where
  extractedFunctions : List (Str × FuncData)
  extractedState : List StateRec
  extractedLogic : List LogicRec
  warnings : List Str
deriving DecidableEq

/-- A fresh ReactExtractor. -/
def emptyESt : ESt := ⟨[], [], [], []⟩

/-- Map.prototype.set: overwrite the value in place when the key is
present, else append. -/
def mapSet (m : List (Str × FuncData)) (k : Str) (v : FuncData) :
    List (Str × FuncData) :=
  match m with
  | [] => [(k, v)]
  | (k0, v0) :: rest =>
      if k0 = k then (k0, v) :: rest else (k0, v0) :: mapSet rest k v

/-- Map.prototype.get. -/
def mapGet (m : List (Str × FuncData)) (k : Str) : Option FuncData :=
  match m with
  | [] => none
  | (k0, v0) :: rest => if k0 = k then some v0 else mapGet rest k

/-- The errors a traversal can surface. typeError models a thrown
TypeError; hang models the extractUseCallback loop never exiting (the
process would not terminate; no exception is raised). -/
inductive JsErr where
  | typeError (msg : Str)
  | hang
deriving DecidableEq

/-- ReactExtractor.isTargetFunction and its allow-list. -/
def targetFunctions : List Str :=
  [L "organizeEmployeeData", L "getEmploymentStatus", L "isManager",
   L "fetchEmployeeData", L "loadData"]

/-- Whether a name is in the allow-list. -/
def isTargetFunction (name : Str) : Bool := targetFunctions.contains name

/-- The JavaScript or-else p.name or the string param. -/
def jsParamName (p : Option Str) : Str :=
  match p with
  | some n => if n.isEmpty then L "param" else n
  | none => L "param"

/-- ReactExtractor.convertToVanillaJS: re-serialize and clean. -/
def convertToVanillaJS (gen : Str) : Str := cleanReactSyntax gen

/-- ReactExtractor.convertArrowToVanillaJS: join the parameter names,
wrap a non-block body in an explicit return block, prefix a function
header, and clean. -/
def convertArrowToVanillaJS (functionName : Str) (params : List (Option Str))
    (blockBody : Bool) (bodyGen : Str) : Str :=
  let ps := joinCommaSp (params.map jsParamName)
  let bodyCode := if blockBody then bodyGen
    else L "\x7b return " ++ bodyGen ++ L "; \x7d"
  cleanReactSyntax
    (L "function " ++ functionName ++ L "(" ++ ps ++ L ") " ++ bodyCode)

/-- ReactExtractor.convertCallbackToVanilla: as the arrow conversion but
the header is asynchronous regardless of the body. -/
def convertCallbackToVanilla (functionName : Str) (params : List (Option Str))
    (blockBody : Bool) (bodyGen : Str) : Str :=
  let ps := joinCommaSp (params.map jsParamName)
  let bodyCode := if blockBody then bodyGen
    else L "\x7b return " ++ bodyGen ++ L "; \x7d"
  cleanReactSyntax
    (L "async function " ++ functionName ++ L "(" ++ ps ++ L ") " ++ bodyCode)

/-- ReactExtractor.convertStateToVanilla (template interpolation prints
undefined for an undefined name). -/
def convertStateToVanilla (getter setter : Option Str) (initialValue : Str) :
    Str :=
  L "let " ++ jsStr getter ++ L " = " ++ initialValue ++
  L ";\nfunction " ++ jsStr setter ++ L "(newValue) \x7b " ++
  jsStr getter ++ L " = newValue; \x7d"

/-- ReactExtractor.extractInitialValue: the switch of sync.js over the
argument node type. Numeric literals of the sources are nonnegative
integers, printed in decimal as JavaScript prints them. -/
def extractInitialValue (node : Option JsNode) : Str :=
  match node with
  | none => L "null"
  | some n =>
      match n with
      | .nullLit => L "null"
      | .boolLit b => if b then L "true" else L "false"
      | .numLit k => Nat.toDigits 10 k
      | .strLit s => '"' :: (s ++ ['"'])
      | .arrayExpr _ => L "[]"
      | .objectExpr _ => L "\x7b\x7d"
      | _ => L "null"

/-- The record extractFunction stores. -/
def funcDeclRecord (params : List (Option Str)) (gen : Str) : FuncData :=
  { code := convertToVanillaJS gen, ftype := L "function",
    params := params.map jsParamName }

/-- The record extractArrowFunction stores. -/
def arrowRecord (functionName : Str) (params : List (Option Str))
    (blockBody : Bool) (bodyGen : Str) : FuncData :=
  { code := convertArrowToVanillaJS functionName params blockBody bodyGen,
    ftype := L "arrow", params := params.map jsParamName }

/-- The record extractUseCallback stores. -/
def callbackRecord (functionName : Str) (params : List (Option Str))
    (blockBody : Bool) (bodyGen : Str) : FuncData :=
  { code := convertCallbackToVanilla functionName params blockBody bodyGen,
    ftype := L "callback", params := params.map jsParamName }

/-- ReactExtractor.extractFunction: store a record when the declaration
has a name on the allow-list. -/
def extractFunction (st : ESt) (idName : Option Str)
    (params : List (Option Str)) (gen : Str) : ESt :=
  match idName with
  | some functionName =>
      if isTargetFunction functionName then
        { st with extractedFunctions :=
            (mapSet st.extractedFunctions functionName
              (funcDeclRecord params gen)) }
      else st
  | none => st

/-- ReactExtractor.extractArrowFunction: store a record when the bound
name exists and is on the allow-list. -/
def extractArrowFunction (st : ESt) (id : DeclTarget)
    (params : List (Option Str)) (blockBody : Bool) (bodyGen : Str) : ESt :=
  match id.nameQ with
  | some functionName =>
      if isTargetFunction functionName then
        { st with extractedFunctions :=
            (mapSet st.extractedFunctions functionName
              (arrowRecord functionName params blockBody bodyGen)) }
      else st
  | none => st

/-- ReactExtractor.extractState: sync.js checks only that the target is
a two-element array pattern. It then reads .name off both elements in
order: a null element (a hole) raises a TypeError that aborts the
traversal; any other element yields its name, possibly undefined, and a
record is pushed regardless. -/
def extractState (st : ESt) (id : DeclTarget) (args : List JsNode) :
    Except JsErr ESt :=
  match id with
  | .arrayPat elements =>
      if elements.length = 2 then
        match elements with
        | [g, sEl] =>
            let initialValue := extractInitialValue args.head?
            match g with
            | none => .error (.typeError (L "Cannot read properties of null"))
            | some gp =>
                match sEl with
                | none =>
                    .error (.typeError (L "Cannot read properties of null"))
                | some sp =>
                    .ok { st with extractedState := st.extractedState ++
                      [{ getter := gp.nameQ, setter := sp.nameQ,
                         initialValue,
                         jsEquivalent :=
                           convertStateToVanilla gp.nameQ sp.nameQ
                             initialValue }] }
        | _ => .ok st
      else .ok st
  | _ => .ok st

/-- The shape of a function-expression node: parameters, whether the
body is a block, and the generated body text. -/
def fnShape : JsNode → Option (List (Option Str) × Bool × Str)
  | .arrowFE ps blk bg _ => some (ps, blk, bg)
  | .funcExprFE ps blk bg _ => some (ps, blk, bg)
  | _ => none

/-- ReactExtractor.extractEffectDependencies element mapping: el.name or
el.value, then the truthiness filter; values are kept in textual form. -/
def depVal : JsNode → Option Str
  | .identNode n => if n.isEmpty then none else some n
  | .strLit s => if s.isEmpty then none else some s
  | .numLit k => if k = 0 then none else some (Nat.toDigits 10 k)
  | .boolLit b => if b then some (L "true") else none
  | _ => none

/-- ReactExtractor.extractEffectDependencies. -/
def extractEffectDependencies (depsNode : Option JsNode) : List Str :=
  match depsNode with
  | some (.arrayExpr els) => els.filterMap depVal
  | _ => []

/-- ReactExtractor.extractUseEffect: a first argument that is a function
yields a logic record; a non-function first argument has no body and the
generator throws; no first argument is skipped. -/
def extractUseEffect (st : ESt) (args : List JsNode) : Except JsErr ESt :=
  match args.head? with
  | none => .ok st
  | some effectFunction =>
      match fnShape effectFunction with
      | none => .error (.typeError (L "Cannot read properties of undefined"))
      | some (_, _, bodyGen) =>
          .ok { st with extractedLogic := st.extractedLogic ++
            [{ ltype := L "effect", code := cleanReactSyntax bodyGen,
               dependencies := extractEffectDependencies (args.get? 1) }] }

/-- Whether a node is a VariableDeclarator. -/
def isVDecl : JsNode → Bool
  | .varDeclarator _ _ => true
  | _ => false

/-- The upward walk of extractUseCallback, as written: parent starts at
path.parent, and every loop iteration reassigns parent to the fixed
value path.parentPath?.parent (the grandparent) because the path itself
is never advanced. The loop exits only when the current parent is
absent or a VariableDeclarator, or when the grandparent is absent. The
fuel counts loop iterations; none means the fuel ran out with the loop
still running. -/
def ucWalkFuel (gp : Option JsNode) : Nat → Option JsNode →
    Option (Option JsNode)
  | fuel, parent =>
      match parent with
      | none => some none
      | some p =>
          if isVDecl p then some (some p)
          else
            match fuel with
            | 0 => none
            | f + 1 =>
                match gp with
                | none => some none
                | some g => ucWalkFuel gp f (some g)

/-- ReactExtractor.extractUseCallback: walk upward (two iterations
decide the walk, see ucWalkFuel), and when the found parent is a
declarator binding an allow-listed identifier, store a callback record
built from the first argument. A missing or non-function first argument
raises a TypeError at that point; a walk that never exits hangs the
run. -/
def extractUseCallback (anc : List JsNode) (st : ESt) (args : List JsNode) :
    Except JsErr ESt :=
  let parent0 := anc.head?
  let gp := (anc.drop 1).head?
  match ucWalkFuel gp 2 parent0 with
  | none => .error .hang
  | some parentRes =>
      match parentRes with
      | some (.varDeclarator (.ident functionName) _) =>
          if isTargetFunction functionName then
            match args.head? with
            | none =>
                .error (.typeError (L "Cannot read properties of undefined"))
            | some cb =>
                match fnShape cb with
                | some (ps, blockBody, bodyGen) =>
                    .ok { st with extractedFunctions :=
                        (mapSet st.extractedFunctions functionName
                          (callbackRecord functionName ps blockBody bodyGen)) }
                | none =>
                    .error
                      (.typeError (L "Cannot read properties of undefined"))
          else .ok st
      | _ => .ok st

/-- Whether a declarator initializer is a useState call. -/
def isUseStateCall : Option JsNode → Bool
  | some (.callExpr calleeName _) => calleeName == some (L "useState")
  | _ => false

/-- The visitor dispatch of ReactExtractor.traverseAST at one node: the
FunctionDeclaration visitor, the VariableDeclarator visitor (arrow and
function-expression initializers, then useState initializers), and the
CallExpression visitor (useEffect, then useCallback). -/
def applyVisitors (anc : List JsNode) (st : ESt) (n : JsNode) :
    Except JsErr ESt :=
  match n with
  | .funcDecl idName params gen _ => .ok (extractFunction st idName params gen)
  | .varDeclarator id init =>
      let st1 :=
        match init with
        | some (.arrowFE ps blk bg _) => extractArrowFunction st id ps blk bg
        | some (.funcExprFE ps blk bg _) => extractArrowFunction st id ps blk bg
        | _ => st
      if isUseStateCall init then
        match init with
        | some (.callExpr _ args) => extractState st1 id args
        | _ => .ok st1
      else .ok st1
  | .callExpr calleeName args =>
      let afterEffect :=
        if calleeName == some (L "useEffect") then extractUseEffect st args
        else .ok st
      match afterEffect with
      | .error e => .error e
      | .ok st1 =>
          if calleeName == some (L "useCallback") then
            extractUseCallback anc st1 args
          else .ok st1
  | _ => .ok st

mutual

/-- The nodes of a subtree in the depth-first pre-order the traversal
visits them, each with its ancestor chain (nearest first). -/
def preorderNode (anc : List JsNode) : JsNode → List (List JsNode × JsNode)
  | .program body =>
      (anc, .program body) :: preorderList (.program body :: anc) body
  | .funcDecl idName params gen body =>
      (anc, .funcDecl idName params gen body) ::
        preorderList (.funcDecl idName params gen body :: anc) body
  | .varDeclarator id init =>
      (anc, .varDeclarator id init) ::
        (match init with
         | some e => preorderNode (.varDeclarator id init :: anc) e
         | none => [])
  | .arrowFE ps blk bg body =>
      (anc, .arrowFE ps blk bg body) ::
        preorderList (.arrowFE ps blk bg body :: anc) body
  | .funcExprFE ps blk bg body =>
      (anc, .funcExprFE ps blk bg body) ::
        preorderList (.funcExprFE ps blk bg body :: anc) body
  | .callExpr calleeName args =>
      (anc, .callExpr calleeName args) ::
        preorderList (.callExpr calleeName args :: anc) args
  | .identNode name => [(anc, .identNode name)]
  | .nullLit => [(anc, .nullLit)]
  | .boolLit b => [(anc, .boolLit b)]
  | .numLit k => [(anc, .numLit k)]
  | .strLit s => [(anc, .strLit s)]
  | .arrayExpr els =>
      (anc, .arrayExpr els) :: preorderList (.arrayExpr els :: anc) els
  | .objectExpr children =>
      (anc, .objectExpr children) ::
        preorderList (.objectExpr children :: anc) children
  | .exprStmt e => (anc, .exprStmt e) :: preorderNode (.exprStmt e :: anc) e
  | .otherNode children =>
      (anc, .otherNode children) ::
        preorderList (.otherNode children :: anc) children

/-- preorderNode over a list of siblings, left to right. -/
def preorderList (anc : List JsNode) : List JsNode →
    List (List JsNode × JsNode)
  | [] => []
  | c :: cs => preorderNode anc c ++ preorderList anc cs

end

/-- The visitors folded over the visit order, stopping at the first
error, as the traversal does. -/
def foldVisits (st : ESt) : List (List JsNode × JsNode) → Except JsErr ESt
  | [] => .ok st
  | (anc, n) :: rest =>
      match applyVisitors anc st n with
      | .error e => .error e
      | .ok st1 => foldVisits st1 rest

/-- ReactExtractor.traverseAST: one depth-first pass from a fresh
extractor, applying the matching visitors at every node. -/
def traverseAST (ast : JsNode) : Except JsErr ESt :=
  foldVisits emptyESt (preorderNode [] ast)

/-- The structured result extractFromReact returns. -/
structure ExtractionResult where
  functions : List (Str × FuncData)
  state : List StateRec
  logic : List LogicRec
  warnings : List Str
deriving DecidableEq

/-- ReactExtractor.buildExtractionResult. -/
def buildExtractionResult (st : ESt) : ExtractionResult :=
  ⟨st.extractedFunctions, st.extractedState, st.extractedLogic, st.warnings⟩

/- ### SyncOrchestrator -/

/-- How a run can fail: a thrown error with its message, or a run that
never terminates (the extractUseCallback hang). -/
inductive RunErr where
  | thrown (msg : Str)
  | neverTerminates
deriving DecidableEq

/-- ReactExtractor.extractFromReact over source text already read: parse
with the external parser, traverse and build the result; any error is
rethrown wrapped in the parse-failure message. -/
def extractFromReact (parse : Str → Except Str JsNode) (content : Str) :
    Except RunErr ExtractionResult :=
  match parse content with
  | .error msg => .error (.thrown (L "Failed to parse React file: " ++ msg))
  | .ok ast =>
      match traverseAST ast with
      | .error (.typeError m) =>
          .error (.thrown (L "Failed to parse React file: " ++ m))
      | .error .hang => .error .neverTerminates
      | .ok st => .ok (buildExtractionResult st)

/-- The outcome of a sync run: the process exit code and the target file
content after the run. -/
structure SyncResult where
  exitCode : Nat
  htmlAfter : Option Str
deriving DecidableEq

/-- SyncOrchestrator.sync over file contents (none is a missing file):
validate both files exist, extract, patch, and write the patched text
once at the very end. Any thrown error is caught and the process exits
with code one, the target untouched. A hanging run has no outcome
(none). -/
def syncRun (parse : Str → Except Str JsNode)
    (reactContent htmlContent : Option Str) : Option SyncResult :=
  match reactContent with
  | none => some ⟨1, htmlContent⟩
  | some src =>
      match htmlContent with
      | none => some ⟨1, htmlContent⟩
      | some htext =>
          match extractFromReact parse src with
          | .error .neverTerminates => none
          | .error (.thrown _) => some ⟨1, htmlContent⟩
          | .ok er =>
              some ⟨0, some (updateHTMLText er.functions er.state
                ⟨0, 0, []⟩ htext).2⟩

/- ### Helper lemmas: the skip and insertion paths of updateFunction -/

/-- The inserted block of the insertion fallback: the newline and eight
spaces, the eight-space-indented cleaned code, and the blank-line pad. -/
def insertedBlock (functionData : FuncData) : Str :=
  L "\n        " ++
    indentCode (jsTrim (jsReplaceAllS undefinedRe [] functionData.code)) 8 ++
    L "\n\n    "

/-- The header text of a function declaration for a name. -/
def fnHeader (functionName : Str) : Str :=
  L "function " ++ functionName ++ L "("

theorem updateFunction_skip (st : UpdSt) (html functionName : Str)
    (fd : FuncData)
    (h1 : jsMatchG (pattern1 functionName) html = none)
    (h2 : jsMatchG (pattern2 functionName) html = none)
    (h3 : jsMatchG (pattern3 functionName) html = none)
    (h4 : lastIndexOfQ html scriptCloseMarker = none) :
    updateFunction st html functionName fd =
      ({ st with skipCount := st.skipCount + 1,
                 warnings := st.warnings ++ [warnNoInsertion functionName] },
       html) := by
  simp [updateFunction, firstMatch, h1, h2, h3, h4]

theorem updateFunction_insert (st : UpdSt) (html functionName : Str)
    (fd : FuncData) (ip : Nat)
    (h1 : jsMatchG (pattern1 functionName) html = none)
    (h2 : jsMatchG (pattern2 functionName) html = none)
    (h3 : jsMatchG (pattern3 functionName) html = none)
    (h4 : lastIndexOfQ html scriptCloseMarker = some ip) :
    updateFunction st html functionName fd =
      ({ st with updateCount := st.updateCount + 1 },
       html.take ip ++ insertedBlock fd ++ html.drop ip) := by
  simp [updateFunction, firstMatch, h1, h2, h3, h4, insertedBlock]

/- ### C1: idempotence of the patch phase -/

/-- The function records of the C1 counterexample: one record for foo
whose generated declaration spans three lines. -/
def c1FuncsCx : List (Str × FuncData) :=
  [(L "foo",
    { code := L "function foo() \x7b\nb;\n\x7d", ftype := L "function",
      params := [] })]

/-- The target of the C1 counterexample: no declaration of foo, one
closing script marker. -/
def c1HtmlCx : Str := L "x</script>"

/-- C1, counterexample. The first application inserts the declaration
before the closing script marker; the second application re-matches the
inserted declaration with pattern (a), takes the default eight-space
indentation (the matched-array entry one is absent: there is only one
match) and rewrites the matched region, which starts at the newline
preceding the declaration, without that newline. The second output
therefore differs from the first: the patch phase is not idempotent. -/
theorem c1_counterexample :
    patchText c1FuncsCx [] (patchText c1FuncsCx [] c1HtmlCx) ≠
      patchText c1FuncsCx [] c1HtmlCx := by decide

/-- The skip condition of the patch phase for every function record of
an extraction result against a fixed target text. -/
def skipsAll (functions : List (Str × FuncData)) (html : Str) : Prop :=
  ∀ kv ∈ functions,
    jsMatchG (pattern1 kv.1) html = none ∧
    jsMatchG (pattern2 kv.1) html = none ∧
    jsMatchG (pattern3 kv.1) html = none ∧
    lastIndexOfQ html scriptCloseMarker = none

instance (functions : List (Str × FuncData)) (html : Str) :
    Decidable (skipsAll functions html) := by
  unfold skipsAll; infer_instance

theorem foldFuncs_skip (functions : List (Str × FuncData)) (st : UpdSt)
    (html : Str) (h : skipsAll functions html) :
    (functions.foldl (fun acc kv => updateFunction acc.1 acc.2 kv.1 kv.2)
      (st, html)).2 = html := by
  induction functions generalizing st with
  | nil => rfl
  | cons kv rest ih =>
      have hk := h kv (by simp)
      have hrec := updateFunction_skip st html kv.1 kv.2 hk.1 hk.2.1 hk.2.2.1
        hk.2.2.2
      simp only [List.foldl_cons, hrec]
      exact ih _ fun kv2 hm => h kv2 (by simp [hm])

/-- C1, amended. The patch phase is idempotent on runs that change
nothing: when every function record matches none of the three patterns
and the target has no closing script marker, and there are no state
records, one application leaves the target text unchanged and a second
application equals the first. -/
theorem c1_amended (functions : List (Str × FuncData)) (html : Str)
    (h : skipsAll functions html) :
    patchText functions [] html = html ∧
    patchText functions [] (patchText functions [] html) =
      patchText functions [] html := by
  have hfix : patchText functions [] html = html := by
    unfold patchText updateHTMLText updateStateVariables
    simp [foldFuncs_skip functions ⟨0, 0, []⟩ html h]
  exact ⟨hfix, by rw [hfix]; exact hfix⟩

/-- C1, witness for the amended theorem: a one-record extraction result
against a target with no matching shape and no script marker. -/
theorem c1_amended_witness :
    patchText [(L "foo", ⟨L "x", L "function", []⟩)] [] (L "hello") =
        L "hello" ∧
    patchText [(L "foo", ⟨L "x", L "function", []⟩)] []
        (patchText [(L "foo", ⟨L "x", L "function", []⟩)] [] (L "hello")) =
      patchText [(L "foo", ⟨L "x", L "function", []⟩)] [] (L "hello") :=
  c1_amended [(L "foo", ⟨L "x", L "function", []⟩)] (L "hello") (by decide)

/- ### C3: parse-failure atomicity -/

/-- C3. A source text the parser rejects makes the run exit with code
one and leaves the target text exactly as it was: the only write of the
target happens after a successful extraction. -/
theorem c3_parse_failure (parse : Str → Except Str JsNode) (src h msg : Str)
    (hp : parse src = .error msg) :
    syncRun parse (some src) (some h) = some ⟨1, some h⟩ := by
  simp [syncRun, extractFromReact, hp]

/-- C3, witness: a parser that rejects its input, a concrete source and
a concrete target. -/
theorem c3_parse_failure_witness :
    syncRun (fun _ => .error (L "Unexpected token")) (some (L "x("))
        (some (L "<html>")) = some ⟨1, some (L "<html>")⟩ :=
  c3_parse_failure (fun _ => .error (L "Unexpected token")) (L "x(")
    (L "<html>") (L "Unexpected token") rfl

/- ### C4: the extractUseCallback walk -/

theorem ucWalk_self_none (g : JsNode) (hg : isVDecl g = false) :
    ∀ fuel, ucWalkFuel (some g) fuel (some g) = none := by
  intro fuel
  induction fuel with
  | zero => simp [ucWalkFuel, hg]
  | succ f ih => simpa [ucWalkFuel, hg] using ih

/-- C4. The upward walk of extractUseCallback never advances the path:
each iteration reassigns parent to the same grandparent value. Whenever
the parent is not a variable declarator and the grandparent exists and
is not one either, the loop condition stays true forever: no amount of
fuel makes the loop exit, so the walk does not terminate and extraction
is not total. -/
theorem c4_walk_diverges (p g : JsNode) (hp : isVDecl p = false)
    (hg : isVDecl g = false) :
    ∀ fuel, ucWalkFuel (some g) fuel (some p) = none := by
  intro fuel
  cases fuel with
  | zero => simp [ucWalkFuel, hp]
  | succ f => simpa [ucWalkFuel, hp, hg] using ucWalk_self_none g hg f

/-- The C4 failing input: a memoized-callback registration standing as a
top-level expression statement, so the parent is an expression statement
and the grandparent is the program node. -/
def c4Prog : JsNode :=
  .program [.exprStmt (.callExpr (some (L "useCallback"))
    [.arrowFE [] true (L "\x7b\x7d") []])]

/-- C4, witness: the walk yields nothing at fuel seven on the concrete
shape, and the embedded traversal of the failing input reports the
hang. -/
theorem c4_walk_diverges_witness :
    ucWalkFuel (some (JsNode.program [])) 7
        (some (.exprStmt (.callExpr (some (L "useCallback")) []))) = none ∧
    traverseAST c4Prog = .error .hang :=
  ⟨c4_walk_diverges _ _ (by decide) (by decide) 7, by decide⟩

/- ### C5: the setter rewrite -/

/-- C5, counterexample. The substitution has no word boundary: the call
resetValue(5), whose callee merely contains the letters set, is not left
unchanged but becomes revalue = 5. -/
theorem c5_counterexample :
    cleanReactSyntax (L "resetValue(5)") = L "revalue = 5" ∧
    cleanReactSyntax (L "resetValue(5)") ≠ L "resetValue(5)" := by decide

/-- C5, amended. The substitution rewrites every occurrence of the
textual shape, the letters set followed by a word run and a
parenthesised argument, anywhere in the text, with no word boundary and
no capitalization requirement: setCount(5) becomes count = 5 and
setx(5) becomes x = 5, but resetValue(5) becomes revalue = 5; a call
such as updateCount(5), with no such substring, passes unchanged. -/
theorem c5_amended :
    cleanReactSyntax (L "setCount(5)") = L "count = 5" ∧
    cleanReactSyntax (L "updateCount(5)") = L "updateCount(5)" ∧
    cleanReactSyntax (L "setx(5)") = L "x = 5" ∧
    cleanReactSyntax (L "resetValue(5)") = L "revalue = 5" := by decide

/- ### C6: state destructuring targets -/

/-- C6, counterexample. A two-element array pattern whose first element
is an object pattern is not skipped: extractState pushes a record whose
reader name is undefined (and whose generated text interpolates the word
undefined). A hole in the pattern is not silently ignored either: it
raises a TypeError. -/
theorem c6_counterexample :
    extractState emptyESt
        (.arrayPat [some .objectPat, some (.ident (L "setX"))]) [.numLit 0] =
      .ok ⟨[], [⟨none, some (L "setX"), L "0",
        L "let undefined = 0;\nfunction setX(newValue) \x7b undefined = newValue; \x7d"⟩],
        [], []⟩ ∧
    extractState emptyESt (.arrayPat [none, some (.ident (L "setX"))])
        [.numLit 0] =
      .error (.typeError (L "Cannot read properties of null")) := by decide

/-- C6, amended. For a two-element array pattern sync.js never checks
the element kinds: when both elements are present a record is pushed
whatever they are, with non-identifier elements contributing undefined
names; an absent element (a hole) raises a TypeError that aborts the
extraction. Nothing is silently skipped. -/
theorem c6_amended (st : ESt) (e1 e2 : PatElem) (args : List JsNode) :
    extractState st (.arrayPat [some e1, some e2]) args =
      .ok { st with extractedState := st.extractedState ++
        [⟨e1.nameQ, e2.nameQ, extractInitialValue args.head?,
          convertStateToVanilla e1.nameQ e2.nameQ
            (extractInitialValue args.head?)⟩] } ∧
    extractState st (.arrayPat [none, some e2]) args =
      .error (.typeError (L "Cannot read properties of null")) ∧
    extractState st (.arrayPat [some e1, none]) args =
      .error (.typeError (L "Cannot read properties of null")) := by
  refine ⟨?_, ?_, ?_⟩ <;> simp [extractState]

/- ### C7: the hard-failure path of the patcher -/

/-- C7. When none of the three patterns matches the target and the
target holds no closing script marker, updateFunction leaves the text
untouched, increments the skip counter by exactly one, appends the
warning naming the function, and leaves the update counter unchanged;
the run continues (the embedding is a total function into a result, not
an error). -/
theorem c7_hard_failure (st : UpdSt) (html functionName : Str) (fd : FuncData)
    (h1 : jsMatchG (pattern1 functionName) html = none)
    (h2 : jsMatchG (pattern2 functionName) html = none)
    (h3 : jsMatchG (pattern3 functionName) html = none)
    (h4 : lastIndexOfQ html scriptCloseMarker = none) :
    updateFunction st html functionName fd =
      ({ st with skipCount := st.skipCount + 1,
                 warnings := st.warnings ++ [warnNoInsertion functionName] },
       html) :=
  updateFunction_skip st html functionName fd h1 h2 h3 h4

/-- C7, witness: a target with no function shape and no marker. -/
theorem c7_hard_failure_witness :
    updateFunction ⟨0, 0, []⟩ (L "hello") (L "foo") ⟨L "code", L "function", []⟩ =
      (⟨0, 1, [warnNoInsertion (L "foo")]⟩, L "hello") :=
  c7_hard_failure ⟨0, 0, []⟩ (L "hello") (L "foo") ⟨L "code", L "function", []⟩
    (by decide) (by decide) (by decide) (by decide)

/- ### C8: the insertion fallback -/

theorem isPrefixB_append (p a b : Str) (h : isPrefixB p a = true) :
    isPrefixB p (a ++ b) = true := by
  induction p generalizing a with
  | nil => rfl
  | cons c p ih =>
      cases a with
      | nil => simp [isPrefixB] at h
      | cons d a =>
          simp only [isPrefixB, Bool.and_eq_true, beq_iff_eq] at h
          simp only [List.cons_append, isPrefixB, Bool.and_eq_true, beq_iff_eq]
          exact ⟨h.1, ih a h.2⟩

theorem countOcc_nil_of_ne (pat : Str) (h : pat ≠ []) : countOcc [] pat = 0 := by
  cases pat with
  | nil => exact absurd rfl h
  | cons c p => simp [countOcc, isPrefixB]

theorem countOcc_le_append (a b pat : Str) (h : pat ≠ []) :
    countOcc a pat ≤ countOcc (a ++ b) pat := by
  induction a with
  | nil => simp [countOcc_nil_of_ne pat h]
  | cons c a ih =>
      show (if isPrefixB pat (c :: a) = true then 1 else 0) + countOcc a pat ≤
        (if isPrefixB pat (c :: (a ++ b)) = true then 1 else 0) +
          countOcc (a ++ b) pat
      refine Nat.add_le_add ?_ ih
      by_cases hp : isPrefixB pat (c :: a) = true
      · have hq : isPrefixB pat (c :: (a ++ b)) = true :=
          isPrefixB_append pat (c :: a) b hp
        rw [hp, hq]
      · simp [Bool.of_not_eq_true hp]

theorem countOcc_le_append_right (a b pat : Str) :
    countOcc b pat ≤ countOcc (a ++ b) pat := by
  induction a with
  | nil => simp
  | cons c a ih =>
      show countOcc b pat ≤
        (if isPrefixB pat (c :: (a ++ b)) = true then 1 else 0) +
          countOcc (a ++ b) pat
      exact le_trans ih (Nat.le_add_left _ _)

/-- No occurrence of the pattern begins inside the first text and ends
inside the second: every occurrence of the pattern in the concatenation
that starts within the first text lies wholly inside it. -/
def noSplitOcc (a b pat : Str) : Prop :=
  ∀ n, n < a.length → isPrefixB pat (a.drop n ++ b) = true →
    isPrefixB pat (a.drop n) = true

instance (a b pat : Str) : Decidable (noSplitOcc a b pat) := by
  unfold noSplitOcc; exact Nat.decidableBallLT _ _

theorem countOcc_append_eq (a b pat : Str) (hpat : pat ≠ [])
    (h : noSplitOcc a b pat) :
    countOcc (a ++ b) pat = countOcc a pat + countOcc b pat := by
  induction a with
  | nil => simp [countOcc_nil_of_ne pat hpat]
  | cons c a ih =>
      have h0 : isPrefixB pat ((c :: a) ++ b) = isPrefixB pat (c :: a) := by
        cases hx : isPrefixB pat (c :: a) with
        | true => exact isPrefixB_append pat (c :: a) b hx
        | false =>
            cases hy : isPrefixB pat ((c :: a) ++ b) with
            | false => rfl
            | true =>
                have := h 0 (by simp) (by simpa using hy)
                simp only [List.drop_zero] at this
                rw [this] at hx
                cases hx
      have ih2 := ih fun n hn hpre => by
        have := h (n + 1) (by simpa using Nat.succ_lt_succ hn)
          (by simpa using hpre)
        simpa using this
      show (if isPrefixB pat (c :: (a ++ b)) = true then 1 else 0) +
          countOcc (a ++ b) pat =
        ((if isPrefixB pat (c :: a) = true then 1 else 0) + countOcc a pat) +
          countOcc b pat
      have h0a : isPrefixB pat (c :: (a ++ b)) = isPrefixB pat (c :: a) := h0
      rw [h0a, ih2, Nat.add_assoc]

/-- C8. When none of the three patterns matches the target text and the
target holds a closing script marker, updateFunction inserts the cleaned
declaration, indented by a fixed eight spaces and padded by blank lines,
immediately before the last occurrence of the marker, increments the
update counter by exactly one and the skip counter by zero; and when the
target held no header for the name and the inserted block holds exactly
one, exactly one header occurs in the result (the occurrence-count
hypotheses and the two boundary conditions are facts of the concrete
scenario the witness discharges). -/
theorem c8_insertion_fallback (st : UpdSt) (html functionName : Str)
    (fd : FuncData) (ip : Nat)
    (h1 : jsMatchG (pattern1 functionName) html = none)
    (h2 : jsMatchG (pattern2 functionName) html = none)
    (h3 : jsMatchG (pattern3 functionName) html = none)
    (h4 : lastIndexOfQ html scriptCloseMarker = some ip)
    (h5 : countOcc html (fnHeader functionName) = 0)
    (h6 : countOcc (insertedBlock fd) (fnHeader functionName) = 1)
    (h7 : noSplitOcc (html.take ip) (insertedBlock fd ++ html.drop ip)
      (fnHeader functionName))
    (h8 : noSplitOcc (insertedBlock fd) (html.drop ip) (fnHeader functionName)) :
    updateFunction st html functionName fd =
      ({ st with updateCount := st.updateCount + 1 },
       html.take ip ++ insertedBlock fd ++ html.drop ip) ∧
    countOcc (html.take ip ++ insertedBlock fd ++ html.drop ip)
      (fnHeader functionName) = 1 := by
  have hne : fnHeader functionName ≠ [] := by simp [fnHeader, L]
  refine ⟨updateFunction_insert st html functionName fd ip h1 h2 h3 h4, ?_⟩
  have hsplit : html.take ip ++ html.drop ip = html := List.take_append_drop ip html
  have h5a : countOcc (html.take ip ++ html.drop ip) (fnHeader functionName) = 0 := by
    rw [hsplit]; exact h5
  have htake : countOcc (html.take ip) (fnHeader functionName) = 0 :=
    Nat.le_zero.mp (le_trans
      (countOcc_le_append (html.take ip) (html.drop ip)
        (fnHeader functionName) hne) (le_of_eq h5a))
  have hdrop : countOcc (html.drop ip) (fnHeader functionName) = 0 :=
    Nat.le_zero.mp (le_trans
      (countOcc_le_append_right (html.take ip) (html.drop ip)
        (fnHeader functionName)) (le_of_eq h5a))
  rw [List.append_assoc, countOcc_append_eq _ _ _ hne h7,
    countOcc_append_eq _ _ _ hne h8, htake, hdrop, h6]

/-- C8, witness: the scenario of the spec with a three-line record for
foo and a target holding only the marker. -/
theorem c8_insertion_fallback_witness :
    updateFunction ⟨0, 0, []⟩ (L "x</script>") (L "foo")
        ⟨L "function foo() \x7b\nb;\n\x7d", L "function", []⟩ =
      (⟨1, 0, []⟩,
       (L "x</script>").take 1 ++
         insertedBlock ⟨L "function foo() \x7b\nb;\n\x7d", L "function", []⟩ ++
         (L "x</script>").drop 1) ∧
    countOcc ((L "x</script>").take 1 ++
        insertedBlock ⟨L "function foo() \x7b\nb;\n\x7d", L "function", []⟩ ++
        (L "x</script>").drop 1) (fnHeader (L "foo")) = 1 :=
  c8_insertion_fallback ⟨0, 0, []⟩ (L "x</script>") (L "foo")
    ⟨L "function foo() \x7b\nb;\n\x7d", L "function", []⟩ 1
    (by decide) (by decide) (by decide) (by decide) (by decide) (by decide)
    (by decide) (by decide)

/- ### C9: initial-value serialization -/

/-- C9. The switch of extractInitialValue, case by case over every
argument node: null to the word null, booleans and numbers to their
textual form, strings re-quoted, array expressions to an empty array,
object expressions to an empty object, and every remaining node kind,
or an absent argument, to the word null. The function is total: it
never raises. -/
theorem c9_initial_value (b : Bool) (k : Nat) (s nm : Str)
    (els chs body args : List JsNode) (idName : Option Str)
    (ps : List (Option Str)) (blk : Bool) (gen : Str) (id : DeclTarget)
    (init : Option JsNode) (e : JsNode) :
    extractInitialValue none = L "null" ∧
    extractInitialValue (some .nullLit) = L "null" ∧
    extractInitialValue (some (.boolLit b)) =
      (if b then L "true" else L "false") ∧
    extractInitialValue (some (.numLit k)) = Nat.toDigits 10 k ∧
    extractInitialValue (some (.strLit s)) = '"' :: (s ++ ['"']) ∧
    extractInitialValue (some (.arrayExpr els)) = L "[]" ∧
    extractInitialValue (some (.objectExpr chs)) = L "\x7b\x7d" ∧
    extractInitialValue (some (.program body)) = L "null" ∧
    extractInitialValue (some (.funcDecl idName ps gen body)) = L "null" ∧
    extractInitialValue (some (.varDeclarator id init)) = L "null" ∧
    extractInitialValue (some (.arrowFE ps blk gen body)) = L "null" ∧
    extractInitialValue (some (.funcExprFE ps blk gen body)) = L "null" ∧
    extractInitialValue (some (.callExpr idName args)) = L "null" ∧
    extractInitialValue (some (.identNode nm)) = L "null" ∧
    extractInitialValue (some (.exprStmt e)) = L "null" ∧
    extractInitialValue (some (.otherNode body)) = L "null" := by
  refine ⟨rfl, rfl, rfl, rfl, rfl, rfl, rfl, rfl, rfl, rfl, rfl, rfl, rfl,
    rfl, rfl, rfl⟩

/- ### C10: the undefined-token deletion -/

/-- C10, counterexample. Deleting an occurrence can splice the text
around it into a new occurrence, which the single left-to-right pass
does not revisit: cleaning undundefinedefined yields exactly the word
undefined, so the cleaned output can contain the substring. -/
theorem c10_counterexample :
    cleanReactSyntax (L "undundefinedefined") = L "undefined" ∧
    containsSub (cleanReactSyntax (L "undundefinedefined"))
      (L "undefined") = true := by decide

/-- C10, amended. The deletion removes, in one left-to-right pass, every
occurrence present in the input, including occurrences inside longer
identifiers, which are mangled by the excision (myundefinedVar becomes
myVar, both in the cleaning chain and in the per-record cleanup of
updateFunction); but the output can still contain the substring formed
by the spliced surroundings of a deleted occurrence. -/
theorem c10_amended :
    cleanReactSyntax (L "myundefinedVar") = L "myVar" ∧
    jsTrim (jsReplaceAllS undefinedRe [] (L "myundefinedVar")) = L "myVar" ∧
    jsReplaceAllS undefinedRe [] (L "a undefined b undefined") = L "a  b " ∧
    containsSub (jsReplaceAllS undefinedRe [] (L "undundefinedefined"))
      (L "undefined") = true := by decide

/- ### C2: the name-overwrite law -/

/-- One map-write step, for folding event lists. -/
def mapSetF (m : List (Str × FuncData)) (kv : Str × FuncData) :
    List (Str × FuncData) :=
  mapSet m kv.1 kv.2

/-- The write the FunctionDeclaration visitor performs, as an event
list: one event for an allow-listed name, none otherwise. -/
def funcDeclEvents (idName : Option Str) (params : List (Option Str))
    (gen : Str) : List (Str × FuncData) :=
  match idName with
  | some nm =>
      if isTargetFunction nm then [(nm, funcDeclRecord params gen)] else []
  | none => []

/-- The write extractArrowFunction performs, as an event list. -/
def arrowEvents (id : DeclTarget) (params : List (Option Str))
    (blockBody : Bool) (bodyGen : Str) : List (Str × FuncData) :=
  match id.nameQ with
  | some nm =>
      if isTargetFunction nm then [(nm, arrowRecord nm params blockBody bodyGen)]
      else []
  | none => []

/-- The write extractUseCallback performs when it completes, as an event
list. -/
def callbackEvents (anc : List JsNode) (args : List JsNode) :
    List (Str × FuncData) :=
  match ucWalkFuel ((anc.drop 1).head?) 2 anc.head? with
  | some (some (.varDeclarator (.ident nm) _)) =>
      if isTargetFunction nm then
        match args.head? with
        | some cb =>
            match fnShape cb with
            | some (ps, blockBody, bodyGen) =>
                [(nm, callbackRecord nm ps blockBody bodyGen)]
            | none => []
        | none => []
      else []
  | _ => []

/-- The qualifying declarations a node contributes: the writes the
visitors at this node perform on the function map, in order. -/
def fnEventsAt (anc : List JsNode) (n : JsNode) : List (Str × FuncData) :=
  match n with
  | .funcDecl idName params gen _ => funcDeclEvents idName params gen
  | .varDeclarator id init =>
      match init with
      | some (.arrowFE ps blk bg _) => arrowEvents id ps blk bg
      | some (.funcExprFE ps blk bg _) => arrowEvents id ps blk bg
      | _ => []
  | .callExpr calleeName args =>
      if calleeName == some (L "useCallback") then callbackEvents anc args
      else []
  | _ => []

/-- The qualifying declarations of a whole source tree, in traversal
(source) order: plain function declarations, arrow and
function-expression bindings, and memoized-callback bindings whose
names are allow-listed, each with the record it produces. -/
def qualifyingDecls (ast : JsNode) : List (Str × FuncData) :=
  (preorderNode [] ast).flatMap fun q => fnEventsAt q.1 q.2

theorem extractFunction_functions (st : ESt) (idName : Option Str)
    (params : List (Option Str)) (gen : Str) :
    (extractFunction st idName params gen).extractedFunctions =
      (funcDeclEvents idName params gen).foldl mapSetF
        st.extractedFunctions := by
  cases idName with
  | none => rfl
  | some nm =>
      by_cases ht : isTargetFunction nm = true
      · simp [extractFunction, funcDeclEvents, ht, mapSetF]
      · simp [extractFunction, funcDeclEvents,
          Bool.of_not_eq_true ht]

theorem extractArrowFunction_functions (st : ESt) (id : DeclTarget)
    (params : List (Option Str)) (blockBody : Bool) (bodyGen : Str) :
    (extractArrowFunction st id params blockBody bodyGen).extractedFunctions =
      (arrowEvents id params blockBody bodyGen).foldl mapSetF
        st.extractedFunctions := by
  unfold extractArrowFunction arrowEvents
  cases id.nameQ with
  | none => rfl
  | some nm =>
      by_cases ht : isTargetFunction nm = true
      · simp [ht, mapSetF]
      · simp [Bool.of_not_eq_true ht]

theorem extractState_functions (st : ESt) (id : DeclTarget)
    (args : List JsNode) (st2 : ESt)
    (h : extractState st id args = .ok st2) :
    st2.extractedFunctions = st.extractedFunctions := by
  unfold extractState at h
  split at h
  · split at h
    · split at h
      · split at h
        · cases h
        · split at h
          · cases h
          · cases h; rfl
      · cases h; rfl
    · cases h; rfl
  · cases h; rfl

theorem extractUseEffect_functions (st : ESt) (args : List JsNode) (st2 : ESt)
    (h : extractUseEffect st args = .ok st2) :
    st2.extractedFunctions = st.extractedFunctions := by
  unfold extractUseEffect at h
  split at h
  · cases h; rfl
  · split at h
    · cases h
    · cases h; rfl

theorem extractUseCallback_functions (anc : List JsNode) (st : ESt)
    (args : List JsNode) (st2 : ESt)
    (h : extractUseCallback anc st args = .ok st2) :
    st2.extractedFunctions =
      (callbackEvents anc args).foldl mapSetF st.extractedFunctions := by
  simp only [extractUseCallback] at h
  simp only [callbackEvents]
  cases hw : ucWalkFuel ((anc.drop 1).head?) 2 anc.head? with
  | none => rw [hw] at h; cases h
  | some parentRes =>
      rw [hw] at h
      cases parentRes with
      | none => cases h; rfl
      | some pn =>
          cases pn with
          | varDeclarator vid vinit =>
              cases vid with
              | ident nm =>
                  have h2 : (if isTargetFunction nm = true then
                        (match args.head? with
                         | none =>
                             (Except.error (JsErr.typeError
                               (L "Cannot read properties of undefined")) :
                               Except JsErr ESt)
                         | some cb =>
                             match fnShape cb with
                             | some (ps, blockBody, bodyGen) =>
                                 Except.ok { st with extractedFunctions :=
                                   (mapSet st.extractedFunctions nm
                                     (callbackRecord nm ps blockBody bodyGen)) }
                             | none =>
                                 Except.error (JsErr.typeError
                                   (L "Cannot read properties of undefined")))
                      else Except.ok st) = Except.ok st2 := h
                  show st2.extractedFunctions =
                    List.foldl mapSetF st.extractedFunctions
                      (if isTargetFunction nm = true then
                          (match args.head? with
                           | some cb =>
                               match fnShape cb with
                               | some (ps, blockBody, bodyGen) =>
                                   [(nm, callbackRecord nm ps blockBody bodyGen)]
                               | none => []
                           | none => [])
                        else [])
                  by_cases ht : isTargetFunction nm = true
                  · rw [if_pos ht] at h2 ⊢
                    cases ha : args.head? with
                    | none => rw [ha] at h2; cases h2
                    | some cb =>
                        rw [ha] at h2
                        have h3 : (match fnShape cb with
                             | some (ps, blockBody, bodyGen) =>
                                 Except.ok { st with extractedFunctions :=
                                   (mapSet st.extractedFunctions nm
                                     (callbackRecord nm ps blockBody bodyGen)) }
                             | none =>
                                 (Except.error (JsErr.typeError
                                   (L "Cannot read properties of undefined")) :
                                   Except JsErr ESt)) = Except.ok st2 := h2
                        show st2.extractedFunctions =
                          List.foldl mapSetF st.extractedFunctions
                            (match fnShape cb with
                             | some (ps, blockBody, bodyGen) =>
                                 [(nm, callbackRecord nm ps blockBody bodyGen)]
                             | none => [])
                        cases hs : fnShape cb with
                        | none => rw [hs] at h3; cases h3
                        | some shp =>
                            rw [hs] at h3
                            obtain ⟨ps, blk, bg⟩ := shp
                            cases h3
                            rfl
                  · rw [if_neg ht] at h2 ⊢
                    cases h2; rfl
              | arrayPat els => cases h; rfl
              | otherPat => cases h; rfl
          | program body => cases h; rfl
          | funcDecl a b c d => cases h; rfl
          | arrowFE a b c d => cases h; rfl
          | funcExprFE a b c d => cases h; rfl
          | callExpr a b => cases h; rfl
          | identNode a => cases h; rfl
          | nullLit => cases h; rfl
          | boolLit a => cases h; rfl
          | numLit a => cases h; rfl
          | strLit a => cases h; rfl
          | arrayExpr a => cases h; rfl
          | objectExpr a => cases h; rfl
          | exprStmt a => cases h; rfl
          | otherNode a => cases h; rfl

theorem applyVisitors_functions (anc : List JsNode) (st : ESt) (n : JsNode)
    (st1 : ESt) (h : applyVisitors anc st n = .ok st1) :
    st1.extractedFunctions =
      (fnEventsAt anc n).foldl mapSetF st.extractedFunctions := by
  cases n with
  | funcDecl idName params gen body =>
      cases h
      exact extractFunction_functions st idName params gen
  | varDeclarator id init =>
      simp only [applyVisitors] at h
      simp only [fnEventsAt]
      cases init with
      | none =>
          rw [show isUseStateCall none = false from rfl] at h
          simp only [Bool.false_eq_true, if_false] at h
          cases h; rfl
      | some e =>
          cases e with
          | callExpr cn args2 =>
              by_cases hu : isUseStateCall (some (.callExpr cn args2)) = true
              · rw [if_pos hu] at h
                rw [extractState_functions st id args2 st1 h]
                rfl
              · rw [if_neg hu] at h
                cases h; rfl
          | arrowFE ps blk bg body =>
              rw [show isUseStateCall (some (.arrowFE ps blk bg body)) = false
                from rfl] at h
              simp only [Bool.false_eq_true, if_false] at h
              cases h
              exact extractArrowFunction_functions st id ps blk bg
          | funcExprFE ps blk bg body =>
              rw [show isUseStateCall (some (.funcExprFE ps blk bg body)) = false
                from rfl] at h
              simp only [Bool.false_eq_true, if_false] at h
              cases h
              exact extractArrowFunction_functions st id ps blk bg
          | program body =>
              rw [show isUseStateCall (some (.program body)) = false
                from rfl] at h
              simp only [Bool.false_eq_true, if_false] at h
              cases h; rfl
          | funcDecl a b c d =>
              rw [show isUseStateCall (some (.funcDecl a b c d)) = false
                from rfl] at h
              simp only [Bool.false_eq_true, if_false] at h
              cases h; rfl
          | varDeclarator a b =>
              rw [show isUseStateCall (some (.varDeclarator a b)) = false
                from rfl] at h
              simp only [Bool.false_eq_true, if_false] at h
              cases h; rfl
          | identNode a =>
              rw [show isUseStateCall (some (.identNode a)) = false
                from rfl] at h
              simp only [Bool.false_eq_true, if_false] at h
              cases h; rfl
          | nullLit =>
              rw [show isUseStateCall (some .nullLit) = false from rfl] at h
              simp only [Bool.false_eq_true, if_false] at h
              cases h; rfl
          | boolLit a =>
              rw [show isUseStateCall (some (.boolLit a)) = false from rfl] at h
              simp only [Bool.false_eq_true, if_false] at h
              cases h; rfl
          | numLit a =>
              rw [show isUseStateCall (some (.numLit a)) = false from rfl] at h
              simp only [Bool.false_eq_true, if_false] at h
              cases h; rfl
          | strLit a =>
              rw [show isUseStateCall (some (.strLit a)) = false from rfl] at h
              simp only [Bool.false_eq_true, if_false] at h
              cases h; rfl
          | arrayExpr a =>
              rw [show isUseStateCall (some (.arrayExpr a)) = false
                from rfl] at h
              simp only [Bool.false_eq_true, if_false] at h
              cases h; rfl
          | objectExpr a =>
              rw [show isUseStateCall (some (.objectExpr a)) = false
                from rfl] at h
              simp only [Bool.false_eq_true, if_false] at h
              cases h; rfl
          | exprStmt a =>
              rw [show isUseStateCall (some (.exprStmt a)) = false
                from rfl] at h
              simp only [Bool.false_eq_true, if_false] at h
              cases h; rfl
          | otherNode a =>
              rw [show isUseStateCall (some (.otherNode a)) = false
                from rfl] at h
              simp only [Bool.false_eq_true, if_false] at h
              cases h; rfl
  | callExpr calleeName args =>
      simp only [applyVisitors] at h
      simp only [fnEventsAt]
      by_cases he : (calleeName == some (L "useEffect")) = true
      · rw [if_pos he] at h
        have hcb : (calleeName == some (L "useCallback")) = false := by
          rw [beq_iff_eq] at he
          subst he
          decide
        rw [hcb]
        simp only [Bool.false_eq_true, if_false]
        cases heff : extractUseEffect st args with
        | error e => rw [heff] at h; cases h
        | ok st1a =>
            rw [heff] at h
            have h2 : (if (calleeName == some (L "useCallback")) = true
                then extractUseCallback anc st1a args
                else Except.ok st1a) = Except.ok st1 := h
            rw [hcb] at h2
            simp only [Bool.false_eq_true, if_false] at h2
            cases h2
            exact extractUseEffect_functions st args _ heff
      · rw [if_neg he] at h
        have h2 : (if (calleeName == some (L "useCallback")) = true
            then extractUseCallback anc st args
            else Except.ok st) = Except.ok st1 := h
        by_cases hc : (calleeName == some (L "useCallback")) = true
        · rw [if_pos hc] at h2 ⊢
          exact extractUseCallback_functions anc st args st1 h2
        · rw [if_neg hc] at h2
          rw [if_neg hc]
          cases h2
          rfl
  | program body => cases h; rfl
  | arrowFE ps blk bg body => cases h; rfl
  | funcExprFE ps blk bg body => cases h; rfl
  | identNode nm => cases h; rfl
  | nullLit => cases h; rfl
  | boolLit b => cases h; rfl
  | numLit k => cases h; rfl
  | strLit s => cases h; rfl
  | arrayExpr els => cases h; rfl
  | objectExpr chs => cases h; rfl
  | exprStmt e => cases h; rfl
  | otherNode chs => cases h; rfl

theorem foldVisits_functions (ps : List (List JsNode × JsNode)) (st st2 : ESt)
    (h : foldVisits st ps = .ok st2) :
    st2.extractedFunctions =
      (ps.flatMap fun q => fnEventsAt q.1 q.2).foldl mapSetF
        st.extractedFunctions := by
  induction ps generalizing st with
  | nil => cases h; rfl
  | cons q rest ih =>
      unfold foldVisits at h
      split at h
      · cases h
      · rename_i st1 happ
        have h1 := applyVisitors_functions q.1 st q.2 st1 happ
        have h2 := ih st1 h
        rw [h2, h1, List.flatMap_cons, List.foldl_append]

/-- The value the last event with a given key carries, if any. -/
def lastValueFor (k : Str) : List (Str × FuncData) → Option FuncData
  | [] => none
  | kv :: rest =>
      match lastValueFor k rest with
      | some v => some v
      | none => if kv.1 = k then some kv.2 else none

/-- How many entries of the map carry a given key. -/
def countKey : List (Str × FuncData) → Str → Nat
  | [], _ => 0
  | kv :: rest, k => (if kv.1 = k then 1 else 0) + countKey rest k

theorem mapGet_mapSet_self (m : List (Str × FuncData)) (k : Str)
    (v : FuncData) : mapGet (mapSet m k v) k = some v := by
  induction m with
  | nil => simp [mapSet, mapGet]
  | cons kv rest ih =>
      obtain ⟨k0, v0⟩ := kv
      by_cases hk : k0 = k
      · simp [mapSet, mapGet, hk]
      · simp [mapSet, mapGet, hk, ih]

theorem mapGet_mapSet_ne (m : List (Str × FuncData)) (k k2 : Str)
    (v : FuncData) (h : k2 ≠ k) :
    mapGet (mapSet m k v) k2 = mapGet m k2 := by
  have hne : ¬(k = k2) := fun he => h he.symm
  induction m with
  | nil => simp [mapSet, mapGet, hne]
  | cons kv rest ih =>
      obtain ⟨k0, v0⟩ := kv
      by_cases hk : k0 = k
      · subst hk
        simp [mapSet, mapGet, hne]
      · by_cases hk2 : k0 = k2
        · subst hk2
          simp [mapSet, mapGet, hk]
        · simp [mapSet, mapGet, hk, hk2, ih]

theorem mapGet_foldl_mapSet (evs : List (Str × FuncData)) :
    ∀ (m : List (Str × FuncData)) (k : Str),
    mapGet (evs.foldl mapSetF m) k =
      (match lastValueFor k evs with
       | some v => some v
       | none => mapGet m k) := by
  induction evs with
  | nil => intro m k; rfl
  | cons kv rest ih =>
      intro m k
      rw [List.foldl_cons]
      rw [ih (mapSetF m kv) k]
      show (match lastValueFor k rest with
            | some v => some v
            | none => mapGet (mapSet m kv.1 kv.2) k) =
        (match (match lastValueFor k rest with
                | some v => some v
                | none => if kv.1 = k then some kv.2 else none) with
         | some v => some v
         | none => mapGet m k)
      cases lastValueFor k rest with
      | some v => rfl
      | none =>
          by_cases hk : kv.1 = k
          · subst hk
            simp [mapGet_mapSet_self]
          · simp [hk, mapGet_mapSet_ne m kv.1 k kv.2 fun he => hk he.symm]

theorem countKey_mapSet_other (m : List (Str × FuncData)) (k k2 : Str)
    (v : FuncData) (h : k2 ≠ k) :
    countKey (mapSet m k v) k2 = countKey m k2 := by
  have hne : ¬(k = k2) := fun he => h he.symm
  induction m with
  | nil => simp [mapSet, countKey, hne]
  | cons kv rest ih =>
      obtain ⟨k0, v0⟩ := kv
      by_cases hk : k0 = k
      · subst hk
        simp [mapSet, countKey]
      · simp [mapSet, countKey, hk, ih]

theorem countKey_mapSet_self_le (m : List (Str × FuncData)) (k : Str)
    (v : FuncData) (h : countKey m k ≤ 1) :
    countKey (mapSet m k v) k ≤ 1 := by
  induction m with
  | nil => simp [mapSet, countKey]
  | cons kv rest ih =>
      obtain ⟨k0, v0⟩ := kv
      by_cases hk : k0 = k
      · subst hk
        simp only [mapSet, if_pos rfl]
        simp only [countKey, if_pos rfl] at h ⊢
        omega
      · simp only [mapSet, if_neg hk]
        simp only [countKey, if_neg hk] at h ⊢
        simpa using ih (by omega)

theorem countKey_foldl_le (evs : List (Str × FuncData)) :
    ∀ (m : List (Str × FuncData)), (∀ k0, countKey m k0 ≤ 1) →
      ∀ k, countKey (evs.foldl mapSetF m) k ≤ 1 := by
  induction evs with
  | nil => intro m hm k; exact hm k
  | cons kv rest ih =>
      intro m hm k
      rw [List.foldl_cons]
      refine ih (mapSetF m kv) (fun k0 => ?_) k
      by_cases hk : k0 = kv.1
      · subst hk
        exact countKey_mapSet_self_le m kv.1 kv.2 (hm kv.1)
      · rw [show mapSetF m kv = mapSet m kv.1 kv.2 from rfl,
          countKey_mapSet_other m kv.1 k0 kv.2 hk]
        exact hm k0

theorem mapGet_some_countKey_pos (m : List (Str × FuncData)) (k : Str)
    (v : FuncData) (h : mapGet m k = some v) : 1 ≤ countKey m k := by
  induction m with
  | nil => cases h
  | cons kv rest ih =>
      obtain ⟨k0, v0⟩ := kv
      by_cases hk : k0 = k
      · simp [countKey, hk]
      · simp only [mapGet, if_neg hk] at h
        simp only [countKey, if_neg hk]
        have := ih h
        omega

/-- C2. Whenever the traversal completes, the function map holds, for a
name with two or more qualifying declarations (plain declarations,
arrow or function-expression bindings, memoized-callback bindings on
the allow-list, in traversal order), exactly one record: the one the
last such declaration produced. -/
theorem c2_name_overwrite (ast : JsNode) (st : ESt) (functionName : Str)
    (lastRec : FuncData)
    (hok : traverseAST ast = .ok st)
    (_hmany : 2 ≤ countKey (qualifyingDecls ast) functionName)
    (hlast : lastValueFor functionName (qualifyingDecls ast) = some lastRec) :
    mapGet st.extractedFunctions functionName = some lastRec ∧
    countKey st.extractedFunctions functionName = 1 := by
  unfold traverseAST at hok
  have hfns : st.extractedFunctions =
      (qualifyingDecls ast).foldl mapSetF emptyESt.extractedFunctions :=
    foldVisits_functions _ _ _ hok
  have hget : mapGet st.extractedFunctions functionName = some lastRec := by
    rw [hfns, mapGet_foldl_mapSet (qualifyingDecls ast)
      emptyESt.extractedFunctions functionName, hlast]
  refine ⟨hget, ?_⟩
  have hle : countKey st.extractedFunctions functionName ≤ 1 := by
    rw [hfns]
    exact countKey_foldl_le (qualifyingDecls ast) emptyESt.extractedFunctions
      (fun k0 => by simp [emptyESt, countKey]) functionName
  have hge := mapGet_some_countKey_pos st.extractedFunctions functionName
    lastRec hget
  omega

/-- The C2 witness source: a plain declaration of loadData followed by
an arrow binding of the same name. -/
def c2Prog : JsNode :=
  .program
    [.funcDecl (some (L "loadData")) [] (L "function loadData() \x7b\x7d") [],
     .otherNode [.varDeclarator (.ident (L "loadData"))
       (some (.arrowFE [] true (L "\x7b\x7d") []))]]

/-- The record of the last (arrow) declaration of the C2 witness. -/
def c2Rec : FuncData :=
  ⟨L "function loadData() \x7b\x7d", L "arrow", []⟩

/-- The extractor state the C2 witness run produces. -/
def c2St : ESt := ⟨[(L "loadData", c2Rec)], [], [], []⟩

/-- C2, witness: the two same-name declarations collapse to one map
entry holding the later record. -/
theorem c2_name_overwrite_witness :
    traverseAST c2Prog = .ok c2St ∧
    (mapGet c2St.extractedFunctions (L "loadData") = some c2Rec ∧
     countKey c2St.extractedFunctions (L "loadData") = 1) :=
  ⟨by decide,
   c2_name_overwrite c2Prog c2St (L "loadData") c2Rec (by decide) (by decide)
     (by decide)⟩

end OrgSync
